import Mathlib

/-!
# Verification of the delay-aware commute alarm scheduler

A shallow embedding of the scheduler core of the BahnAlarm app:

* the commute-occurrence resolver (`src/utils/timeHelper.ts`),
* the journey-selection policy (`src/utils/journeySelection.ts`),
* the transit-client cache and retry wrapper (`src/api/DbApiService.ts`),
* the three alarm-reconciliation cycles (`backgroundTask` in
  `src/services/BackgroundUpdateService.ts`, `loadData` in
  `DashboardScreen`, `handleSaveAll` in `SettingsScreen.tsx`).

Conventions of the embedding:

* Instants are integers counting **seconds**; delays are given in seconds
  by the upstream API, preparation times and safety buffers in minutes
  (multiplied by 60 where the source multiplies by `60 * 1000`).
  Resolver-side wall-clock values are `Nat`, journey timestamps are `Int`.
* `date-fns` helpers are unfolded: `isPast d` is `d < now`,
  `getDay` is day-since-epoch plus 4 modulo 7 (1 Jan 1970 was a Thursday),
  `set(addDays(now, i), {hours, minutes})` is `atTime (dayOf now + i) h m`.
* A thrown JavaScript exception is modelled as `Option.none`.
* Locale-formatted reasoning strings are abstracted into the constructors
  of `Reasoning`, keeping the numeric data that is interpolated into them.
* The `"HH:mm"` arrival time of a commute is embedded already split into
  its hour and minute components (`split(':').map(Number)` in the source).
-/

/-! ## Wall-clock model (date-fns helpers) -/

/-- Seconds in a day. -/
def secondsPerDay : Nat := 86400

/-- Calendar day index of an instant (seconds since epoch). -/
def dayOf (t : Nat) : Nat := t / secondsPerDay

/-- JavaScript `getDay`: 0 = Sunday … 6 = Saturday.  1 Jan 1970 (day 0)
was a Thursday, i.e. `getDay = 4`. -/
def weekdayOf (t : Nat) : Nat := (dayOf t + 4) % 7

/-- `set(dayStart, {hours, minutes, seconds: 0, milliseconds: 0})`:
the instant of calendar day `day` at `h:m`. -/
def atTime (day h m : Nat) : Nat := day * secondsPerDay + h * 3600 + m * 60

/-- date-fns `isPast`: strictly before the current instant. -/
def isPast (now t : Nat) : Bool := t < now

/-! ## CommuteRule data model (`src/types/SettingsTypes.ts`) -/

/-- Station reference stored with a commute. -/
structure Station where
  id : String
  name : String
deriving Repr, DecidableEq

/-- A single commute rule (v2 schema, `SettingsTypes.ts`). -/
structure CommuteRule where
  id : String
  name : String
  enabled : Bool
  /-- Weekday selection, `0 = Sun … 6 = Sat`. -/
  days : List Nat
  startStation : Option Station
  destinationStation : Option Station
  /-- Hour component of the parsed `"HH:mm"` arrival time. -/
  arrivalHour : Nat
  /-- Minute component of the parsed `"HH:mm"` arrival time. -/
  arrivalMin : Nat
  /-- Minutes needed to get ready. -/
  preparationTime : Nat
  /-- Extra buffer for delays, minutes. -/
  safetyBuffer : Nat
  isRecurring : Bool
  /-- Calendar day of a one-time commute (`oneTimeDate`), absent otherwise. -/
  oneTimeDate : Option Nat
deriving Repr, DecidableEq

/-- Result record of `findNextActiveCommute` (`timeHelper.ts`). -/
structure NextCommute where
  commuteDate : Nat
  commute : CommuteRule
  isNextWeek : Bool
deriving Repr, DecidableEq

/-! ## Occurrence resolver (`src/utils/timeHelper.ts`, `findNextActiveCommute`) -/

/-- The inner day-offset scan of the recurring branch: offsets `0..6` from
today; a matching weekday yields the candidate unless it is offset `0` and
the time already passed (then the scan continues); the first hit wins
(`break`).  Returns the offset together with the candidate instant. -/
def recurringScan (now : Nat) (c : CommuteRule) : Option (Nat × Nat) :=
  (List.range 7).findSome? fun i =>
    if c.days.contains ((weekdayOf now + i) % 7) then
      if i == 0 && isPast now (atTime (dayOf now + i) c.arrivalHour c.arrivalMin)
      then none
      else some (i, atTime (dayOf now + i) c.arrivalHour c.arrivalMin)
    else none

/-- The candidate occurrence a single commute contributes in the loop body of
`findNextActiveCommute`: `none` when disabled, when a one-time date already
passed, when a recurring commute has no selected days, or when the day scan
finds nothing. -/
def candidateOf (now : Nat) (c : CommuteRule) : Option NextCommute :=
  if c.enabled = false then none
  else if c.isRecurring = false ∧ c.oneTimeDate.isSome then
    match c.oneTimeDate with
    | some d0 =>
      if isPast now (atTime d0 c.arrivalHour c.arrivalMin) then none
      else some ⟨atTime d0 c.arrivalHour c.arrivalMin, c, false⟩
    | none => none
  else if c.days.isEmpty then none
  else
    match recurringScan now c with
    | some (i, d) => some ⟨d, c, decide (7 ≤ i)⟩
    | none => none

/-- The comparison step of the loop: replace the best candidate only when
the new candidate is strictly earlier (`commuteDate < bestCandidate.commuteDate`). -/
def updateBest (now : Nat) (best : Option NextCommute) (c : CommuteRule) :
    Option NextCommute :=
  match candidateOf now c with
  | none => best
  | some cand =>
    match best with
    | none => some cand
    | some b =>
      if cand.commuteDate < b.commuteDate then some cand else some b

/-- `findNextActiveCommute`: keep the candidate with the strictly smallest
`commuteDate` (first encountered wins ties), `null` when the list is empty
or no commute contributes a candidate. -/
def findNextActiveCommute (now : Nat) (commutes : List CommuteRule) :
    Option NextCommute :=
  if commutes.isEmpty then none
  else commutes.foldl (updateBest now) none

/-! ## Journey data model (`src/types/ApiTypes.ts`) -/

/-- One leg of a journey.  Timestamps in seconds (`Int`); delays in seconds,
`none` when the API reports no delay information. -/
structure Leg where
  plannedDeparture : Int
  plannedArrival : Int
  departureDelay : Option Int
  arrivalDelay : Option Int
  lineName : Option String
deriving Repr, DecidableEq

/-- A journey: an ordered list of legs. -/
structure Journey where
  legs : List Leg
deriving Repr, DecidableEq

/-- `plannedArrival + (arrivalDelay || 0)` for a leg. -/
def legActualArrival (l : Leg) : Int := l.plannedArrival + l.arrivalDelay.getD 0

/-- `plannedDeparture + (departureDelay || 0)` for a leg. -/
def legActualDeparture (l : Leg) : Int :=
  l.plannedDeparture + l.departureDelay.getD 0

/-- Delay-adjusted departure of a journey: its first leg's actual departure
(`0` for a journey without legs, which the selector never scores). -/
def journeyActualDeparture (j : Journey) : Int :=
  match j.legs.head? with
  | some f => legActualDeparture f
  | none => 0

/-- Delay-adjusted arrival of a journey: its last leg's actual arrival. -/
def journeyActualArrival (j : Journey) : Int :=
  match j.legs.getLast? with
  | some l => legActualArrival l
  | none => 0

/-- Viability test of the selector: the delay-adjusted arrival is at or
before the latest acceptable arrival.  A journey without legs is skipped by
the scoring loop and is never viable. -/
def isViable (latestAcceptableArrival : Int) (j : Journey) : Bool :=
  match j.legs.head?, j.legs.getLast? with
  | some _, some l => legActualArrival l ≤ latestAcceptableArrival
  | _, _ => false

/-! ## Journey selector (`src/utils/journeySelection.ts`) -/

/-- A scored viable journey, as pushed by the `forEach` loop. -/
structure ScoredJourney where
  journey : Journey
  journeyIndex : Nat
  actualArrival : Int
  actualDeparture : Int
deriving Repr, DecidableEq

/-- The `forEach` scoring loop: journeys with a missing first or last leg
are skipped; the rest are scored and kept when viable, in input order. -/
def viableJourneysAux (latestAcceptableArrival : Int) :
    List Journey → Nat → List ScoredJourney
  | [], _ => []
  | j :: rest, idx =>
    match j.legs.head?, j.legs.getLast? with
    | some f, some l =>
      if legActualArrival l ≤ latestAcceptableArrival then
        ⟨j, idx, legActualArrival l, legActualDeparture f⟩ ::
          viableJourneysAux latestAcceptableArrival rest (idx + 1)
      else viableJourneysAux latestAcceptableArrival rest (idx + 1)
    | _, _ => viableJourneysAux latestAcceptableArrival rest (idx + 1)

/-- All viable scored journeys, indexed from `0`. -/
def viableJourneys (journeys : List Journey) (latestAcceptableArrival : Int) :
    List ScoredJourney :=
  viableJourneysAux latestAcceptableArrival journeys 0

/-- Stable descending sort by `actualDeparture` followed by taking the head
is exactly "first element with the maximal actual departure": the fold
replaces the current best only on a strictly later departure. -/
def pickLatest (s : ScoredJourney) (rest : List ScoredJourney) : ScoredJourney :=
  rest.foldl
    (fun best x =>
      if best.actualDeparture < x.actualDeparture then x else best) s

/-- The reasoning strings of the selector, with locale formatting abstracted
away but the interpolated numeric data kept. -/
inductive Reasoning where
  | noJourneys
  | fallbackWarning (latestAcceptableArrival : Int)
  | selectedInfo (actualDeparture actualArrival bufferMinutes : Int)
deriving Repr, DecidableEq

/-- Result record of `selectOptimalJourney`. -/
structure JourneySelection where
  journey : Option Journey
  selectedLegIndex : Int
  alarmTime : Option Int
  reasoning : Reasoning
deriving Repr, DecidableEq

/-- JavaScript `Math.round (x / d)` for a positive divisor `d`:
round half away from zero upwards, i.e. `⌊x / d + 1 / 2⌋`. -/
def jsRoundDiv (x d : Int) : Int := Int.fdiv (2 * x + d) (2 * d)

/-- `selectOptimalJourney` (`journeySelection.ts`).  `none` models the
`TypeError` thrown on the fallback path when the first journey has no legs
(`journeys[0].legs[0].plannedDeparture`); every other path returns a value. -/
def selectOptimalJourney (journeys : List Journey) (desiredArrival : Int)
    (prepTime : Int) (safetyBuffer : Int) : Option JourneySelection :=
  if journeys.isEmpty then
    some ⟨none, -1, none, .noJourneys⟩
  else
    let latestAcceptableArrival := desiredArrival - safetyBuffer * 60
    match viableJourneys journeys latestAcceptableArrival with
    | [] =>
      match journeys.head? with
      | none => none
      | some j0 =>
        match j0.legs.head? with
        | none => none
        | some f =>
          let actualDeparture := legActualDeparture f
          some ⟨some j0, 0, some (actualDeparture - prepTime * 60),
            .fallbackWarning latestAcceptableArrival⟩
    | s :: rest =>
      let selected := pickLatest s rest
      let alarmTime := selected.actualDeparture - prepTime * 60
      let bufferMinutes :=
        jsRoundDiv (latestAcceptableArrival - selected.actualArrival) 60
      some ⟨some selected.journey, (selected.journeyIndex : Int),
        some alarmTime,
        .selectedInfo selected.actualDeparture selected.actualArrival
          bufferMinutes⟩

/-! ## Transit-client cache (`src/api/DbApiService.ts`) -/

/-- A cache entry: payload, time stored, expiry instant (milliseconds in the
source; any fixed unit works, the arithmetic is `storedAt + duration`). -/
structure CacheEntry (α : Type) where
  data : α
  timestamp : Nat
  expiresAt : Nat
deriving Repr, DecidableEq

/-- The in-memory `Map` keyed by request signature, as an association list. -/
abbrev Cache (α : Type) : Type := List (String × CacheEntry α)

/-- `cache.get(key)`: the entry stored under the key, if any. -/
def cacheLookup {α : Type} : Cache α → String → Option (CacheEntry α)
  | [], _ => none
  | p :: rest, k => if p.1 == k then some p.2 else cacheLookup rest k

/-- `cache.delete(key)`. -/
def cacheDelete {α : Type} (c : Cache α) (k : String) : Cache α :=
  List.filter (fun p => !(p.1 == k)) c

/-- `cache.set(key, entry)`: replace in place, or append when absent. -/
def cacheInsert {α : Type} (c : Cache α) (k : String) (e : CacheEntry α) :
    Cache α :=
  if List.any c (fun p => p.1 == k) then
    List.map (fun p => if p.1 == k then (k, e) else p) c
  else c ++ [(k, e)]

/-- `getCached`: a hit strictly past `expiresAt` deletes the entry and is a
miss; otherwise the stored data is served.  Returns the served data and the
cache after the lookup. -/
def getCached {α : Type} (now : Nat) (c : Cache α) (k : String) :
    Option α × Cache α :=
  match cacheLookup c k with
  | none => (none, c)
  | some e =>
    if now > e.expiresAt then (none, cacheDelete c k)
    else (some e.data, c)

/-- `setCache`: store with `expiresAt = Date.now() + duration`. -/
def setCache {α : Type} (now : Nat) (c : Cache α) (k : String) (d : α)
    (duration : Nat) : Cache α :=
  cacheInsert c k ⟨d, now, now + duration⟩

/-- `CACHE_DURATION.stations = 24 * 60 * 60 * 1000` (24 hours, ms). -/
def CACHE_DURATION_stations : Nat := 24 * 60 * 60 * 1000

/-- `CACHE_DURATION.journeys = 2 * 60 * 1000` (2 minutes, ms). -/
def CACHE_DURATION_journeys : Nat := 2 * 60 * 1000

/-- The cache write performed by `findJourneyByArrival` on a successful
fetch: `setCache(cacheKey, data, CACHE_DURATION.journeys)`. -/
def storeJourneysResult {α : Type} (now : Nat) (c : Cache α) (k : String)
    (d : α) : Cache α :=
  setCache now c k d CACHE_DURATION_journeys

/-- The cache write performed by `searchStations` on a successful fetch:
`setCache(cacheKey, filtered, CACHE_DURATION.stations)`. -/
def storeStationsResult {α : Type} (now : Nat) (c : Cache α) (k : String)
    (d : α) : Cache α :=
  setCache now c k d CACHE_DURATION_stations

/-! ## Retry wrapper (`fetchWithRetry`, `src/api/DbApiService.ts`) -/

/-- Outcome of one `fetch` call: a network error (rejected promise) or a
response with an HTTP status. -/
inductive FetchOutcome where
  | netError
  | response (status : Nat)
deriving Repr, DecidableEq

/-- `Response.ok`: status in `[200, 299]`. -/
def responseOk (s : Nat) : Bool := 200 ≤ s && s ≤ 299

/-- `RetryConfig` of the source. -/
structure RetryConfig where
  maxRetries : Nat
  baseDelayMs : Nat
  maxDelayMs : Nat
  retryableStatuses : List Nat
deriving Repr, DecidableEq

/-- `DEFAULT_RETRY_CONFIG`. -/
def DEFAULT_RETRY_CONFIG : RetryConfig :=
  ⟨3, 1000, 10000, [429, 500, 502, 503, 504]⟩

/-- The wait performed before retry number `attempt ≥ 1`:
`min(baseDelayMs * 2 ^ (attempt - 1), maxDelayMs)`. -/
def backoffDelay (cfg : RetryConfig) (attempt : Nat) : Nat :=
  min (cfg.baseDelayMs * 2 ^ (attempt - 1)) cfg.maxDelayMs

/-- Observable trace of a `fetchWithRetry` run: the status of the returned
`Response` (`none` when every attempt was consumed and the last error was
thrown), the waits performed, and the number of `fetch` calls made. -/
structure RetryTrace where
  result : Option Nat
  delays : List Nat
  attempts : Nat
deriving Repr, DecidableEq

/-- The retry loop.  `fuel` is the number of loop iterations left
(`maxRetries + 1 - attempt`); each iteration waits when `attempt > 0`,
fetches, returns the response when it is ok or its status is not retryable,
and otherwise falls through to the next attempt. -/
def fetchGo (cfg : RetryConfig) (outcomes : Nat → FetchOutcome) :
    Nat → Nat → RetryTrace
  | 0, _ => ⟨none, [], 0⟩
  | fuel + 1, attempt =>
    let wait := if 0 < attempt then [backoffDelay cfg attempt] else []
    match outcomes attempt with
    | .netError =>
      let t := fetchGo cfg outcomes fuel (attempt + 1)
      ⟨t.result, wait ++ t.delays, t.attempts + 1⟩
    | .response s =>
      if responseOk s || !(cfg.retryableStatuses.contains s) then
        ⟨some s, wait, 1⟩
      else
        let t := fetchGo cfg outcomes fuel (attempt + 1)
        ⟨t.result, wait ++ t.delays, t.attempts + 1⟩

/-- `fetchWithRetry`: the loop runs attempts `0 .. maxRetries`. -/
def fetchWithRetry (cfg : RetryConfig) (outcomes : Nat → FetchOutcome) :
    RetryTrace :=
  fetchGo cfg outcomes (cfg.maxRetries + 1) 0

/-! ## Persisted alarm state and adjustment history -/

/-- `AlarmAdjustment` (`src/types/AlarmAdjustment.ts`): alarm instants are
ISO strings in storage, embedded as the instants they serialize. -/
structure AlarmAdjustment where
  id : String
  timestamp : Nat
  oldAlarmTime : Int
  newAlarmTime : Int
  delayInMinutes : Int
deriving Repr, DecidableEq

/-- `adj-${Date.now()}`. -/
def mkAdjustmentId (now : Nat) : String := "adj-" ++ toString now

/-- The two persisted values the reconcilers read and write:
`@BahnAlarm:alarmTime` (an ISO instant, embedded as `Int` seconds) and
`@BahnAlarm:adjustmentHistory`.  String comparison of serialized instants
(`oldAlarmTimeString !== formatISO(newAlarmTime)`) is instant equality. -/
structure AlarmStore where
  alarmTime : Option Int
  history : List AlarmAdjustment
deriving Repr, DecidableEq

/-- Outcome of one reconciliation cycle: the store after the cycle, whether
the alarm key was written, whether a trigger notification was actually
created, and whether an `AlarmAdjustment` was created. -/
structure CycleResult where
  store : AlarmStore
  wroteAlarm : Bool
  notificationScheduled : Bool
  recordCreated : Bool
deriving Repr, DecidableEq

/-- `scheduleAlarmNotification` (`BackgroundUpdateService.ts`): refuses a
time in the past, refuses a time less than one minute away, otherwise
cancels the fixed-id notification and creates the new one.  Returns whether
a notification was created. -/
def scheduleAlarmNotification (now alarmTime : Int) : Bool :=
  if alarmTime < now then false
  else if alarmTime < now + 60 then false
  else true

/-! ## The three reconciliation cycles -/

/-- The periodic background trigger (`backgroundTask`,
`BackgroundUpdateService.ts`), from the parsed commute settings and the
journeys returned by `findJourneyByArrival`: resolve the next commute, take
`journeys[0]?.legs[0]`, compute the delay-adjusted departure minus the
preparation time, discard a past alarm, stop when the persisted alarm is
unchanged, otherwise write it, schedule the notification, and - only when a
previous alarm existed - prepend an `AlarmAdjustment` and trim the history
to 10. -/
def backgroundTaskCycle (now : Nat) (commutes : List CommuteRule)
    (fetched : List Journey) (store : AlarmStore) : CycleResult :=
  match findNextActiveCommute now commutes with
  | none => ⟨store, false, false, false⟩
  | some nc =>
    if nc.commute.startStation.isNone || nc.commute.destinationStation.isNone
    then ⟨store, false, false, false⟩
    else
      match (fetched.head?).bind (fun j => j.legs.head?) with
      | none => ⟨store, false, false, false⟩
      | some leg =>
        let delaySeconds := leg.departureDelay.getD 0
        let actualDeparture := leg.plannedDeparture + delaySeconds
        let newAlarmTime :=
          actualDeparture - (nc.commute.preparationTime : Int) * 60
        if newAlarmTime < (now : Int) then ⟨store, false, false, false⟩
        else if store.alarmTime = some newAlarmTime then
          ⟨store, false, false, false⟩
        else
          let notified := scheduleAlarmNotification (now : Int) newAlarmTime
          match store.alarmTime with
          | none => ⟨⟨some newAlarmTime, store.history⟩, true, notified, false⟩
          | some oldAlarmTime =>
            let adjustment : AlarmAdjustment :=
              ⟨mkAdjustmentId now, now, oldAlarmTime, newAlarmTime,
                jsRoundDiv delaySeconds 60⟩
            ⟨⟨some newAlarmTime, (adjustment :: store.history).take 10⟩,
              true, notified, true⟩

/-- The app-foreground trigger (`loadData`, `DashboardScreen`): resolve,
fetch, run the selector, and - only when the selected alarm is not in the
past - write it and schedule the notification (notification only when the
selected journey has a first leg).  Never touches the history.  A selector
exception is caught by the surrounding `try` and leaves the store intact. -/
def dashboardCycle (now : Nat) (commutes : List CommuteRule)
    (fetched : List Journey) (store : AlarmStore) : CycleResult :=
  match findNextActiveCommute now commutes with
  | none => ⟨store, false, false, false⟩
  | some nc =>
    if nc.commute.startStation.isNone || nc.commute.destinationStation.isNone
    then ⟨store, false, false, false⟩
    else
      match selectOptimalJourney fetched (nc.commuteDate : Int)
          (nc.commute.preparationTime : Int) (nc.commute.safetyBuffer : Int)
        with
      | none => ⟨store, false, false, false⟩
      | some sel =>
        match sel.journey, sel.alarmTime with
        | some j, some t =>
          if t < (now : Int) then ⟨store, false, false, false⟩
          else
            let notified :=
              match j.legs.head? with
              | some _ => scheduleAlarmNotification (now : Int) t
              | none => false
            ⟨⟨some t, store.history⟩, true, notified, false⟩
        | _, _ => ⟨store, false, false, false⟩

/-- The explicit settings-save trigger (`handleSaveAll`,
`SettingsScreen.tsx`, lines 157-179), from the resolved commute occurrence
and the fetched journeys: run the selector and, when it yields a journey
with a first leg and an alarm time, write the alarm and call the
notification scheduler.  There is no past-time check and no comparison with
the persisted value before the write, and the history is never touched. -/
def saveAllCycle (now : Nat) (commuteDate : Int) (prepTime safetyBuffer : Nat)
    (fetched : List Journey) (store : AlarmStore) : CycleResult :=
  match selectOptimalJourney fetched commuteDate (prepTime : Int)
      (safetyBuffer : Int) with
  | none => ⟨store, false, false, false⟩
  | some sel =>
    match (sel.journey).bind (fun j => j.legs.head?), sel.alarmTime with
    | some _, some t =>
      let notified := scheduleAlarmNotification (now : Int) t
      ⟨⟨some t, store.history⟩, true, notified, false⟩
    | _, _ => ⟨store, false, false, false⟩

/-- The alarm candidate a background cycle computes before looking at the
persisted state: the delay-adjusted departure of `journeys[0].legs[0]` minus
the preparation time, `none` when the cycle stops earlier (no due commute,
missing stations, no leg, or a past alarm time). -/
def bgCandidate (now : Nat) (commutes : List CommuteRule)
    (fetched : List Journey) : Option Int :=
  match findNextActiveCommute now commutes with
  | none => none
  | some nc =>
    if nc.commute.startStation.isNone || nc.commute.destinationStation.isNone
    then none
    else
      match (fetched.head?).bind (fun j => j.legs.head?) with
      | none => none
      | some leg =>
        if leg.plannedDeparture + leg.departureDelay.getD 0 -
            (nc.commute.preparationTime : Int) * 60 < (now : Int) then none
        else
          some (leg.plannedDeparture + leg.departureDelay.getD 0 -
            (nc.commute.preparationTime : Int) * 60)

/-! ## Lemmas about the occurrence resolver -/

/-- A candidate emitted by `recurringScan` carries its day offset (below 7),
the instant of that offset day at the commute's arrival time, a matching
weekday, and - for offset 0 - a not-yet-passed time. -/
theorem recurringScan_eq_some (now : Nat) (c : CommuteRule) (i d : Nat)
    (h : recurringScan now c = some (i, d)) :
    i < 7 ∧ d = atTime (dayOf now + i) c.arrivalHour c.arrivalMin ∧
      c.days.contains ((weekdayOf now + i) % 7) = true ∧
      (i = 0 → isPast now d = false) := by
  unfold recurringScan at h
  obtain ⟨a, ha, hfa⟩ := List.exists_of_findSome?_eq_some h
  have hai : a < 7 := List.mem_range.mp ha
  simp only [beq_iff_eq, Bool.and_eq_true, decide_eq_true_eq,
    ite_eq_iff, Option.some.injEq, Prod.mk.injEq, and_imp] at hfa
  rcases hfa with ⟨hmem, hrest⟩ | ⟨hmem, hfalse⟩
  · rcases hrest with ⟨hskip, hfalse⟩ | ⟨hskip, rfl, rfl⟩
    · exact absurd hfalse (by simp)
    · refine ⟨hai, rfl, hmem, fun h0 => ?_⟩
      subst h0
      rcases Bool.eq_false_or_eq_true (isPast now
          (atTime (dayOf now + 0) c.arrivalHour c.arrivalMin)) with hp | hp
      · exact absurd ⟨rfl, hp⟩ hskip
      · exact hp
  · exact absurd hfalse (by simp)

/-- The candidate record of a commute carries the commute itself. -/
theorem candidateOf_commute_eq (now : Nat) (c : CommuteRule) (r : NextCommute)
    (h : candidateOf now c = some r) : r.commute = c := by
  unfold candidateOf at h
  split at h
  · exact absurd h (by simp)
  · split at h
    · split at h
      · split at h
        · exact absurd h (by simp)
        · cases h; rfl
      · exact absurd h (by simp)
    · split at h
      · exact absurd h (by simp)
      · split at h
        · cases h; rfl
        · exact absurd h (by simp)

/-- Full description of a successful `candidateOf`: the record carries the
commute, is never in the past, never flags `isNextWeek` (the flag
`i >= 7` is unreachable with day offsets `0..6`), and a candidate produced
by the recurring branch sits on one of the next seven days. -/
theorem candidateOf_spec (now : Nat) (c : CommuteRule) (r : NextCommute)
    (h : candidateOf now c = some r) :
    r.commute = c ∧ isPast now r.commuteDate = false ∧ r.isNextWeek = false ∧
      ((c.isRecurring = true ∨ c.oneTimeDate = none) →
        ∃ i, i < 7 ∧
          r.commuteDate = atTime (dayOf now + i) c.arrivalHour c.arrivalMin ∧
          c.days.contains ((weekdayOf now + i) % 7) = true) := by
  unfold candidateOf at h
  split at h
  · exact absurd h (by simp)
  · rename_i hbranch
    split at h
    · rename_i hone
      split at h
      · rename_i d0 hd0
        split at h
        · exact absurd h (by simp)
        · rename_i hpa
          cases h
          refine ⟨rfl, by simpa using hpa, rfl, fun hcase => ?_⟩
          rcases hcase with hcase | hcase
          · exact absurd hcase (by simp [hone.1])
          · rw [hcase] at hd0; cases hd0
      · exact absurd h (by simp)
    · split at h
      · exact absurd h (by simp)
      · split at h
        · rename_i i d hscan
          obtain ⟨hi7, hd, hcont, h0⟩ := recurringScan_eq_some now c i d hscan
          cases h
          refine ⟨rfl, ?_, by simp [Nat.not_le.mpr hi7], fun _ => ⟨i, hi7, hd, hcont⟩⟩
          rcases Nat.eq_zero_or_pos i with rfl | hpos
          · exact h0 rfl
          · subst hd
            simp only [isPast, atTime, dayOf, secondsPerDay,
              decide_eq_false_iff_not, Nat.not_lt]
            omega
        · exact absurd h (by simp)

/-- With a well-formed `"HH:mm"` arrival time, a candidate produced by the
recurring branch lies at most six calendar days after today. -/
theorem candidateOf_day_bound (now : Nat) (c : CommuteRule) (r : NextCommute)
    (hh : c.arrivalHour < 24) (hm : c.arrivalMin < 60)
    (hbranch : c.isRecurring = true ∨ c.oneTimeDate = none)
    (h : candidateOf now c = some r) :
    dayOf r.commuteDate ≤ dayOf now + 6 := by
  obtain ⟨-, -, -, hex⟩ := candidateOf_spec now c r h
  obtain ⟨i, hi7, hdate, -⟩ := hex hbranch
  rw [hdate]
  simp only [atTime, dayOf, secondsPerDay]
  omega

/-- A disabled commute contributes no candidate. -/
theorem candidateOf_disabled (now : Nat) (c : CommuteRule)
    (h : c.enabled = false) : candidateOf now c = none := by
  unfold candidateOf
  simp [h]

/-- A one-time commute whose date-at-arrival-time already passed contributes
no candidate. -/
theorem candidateOf_onetime_passed (now : Nat) (c : CommuteRule) (d0 : Nat)
    (hrec : c.isRecurring = false) (hdate : c.oneTimeDate = some d0)
    (hpast : isPast now (atTime d0 c.arrivalHour c.arrivalMin) = true) :
    candidateOf now c = none := by
  unfold candidateOf
  split
  · rfl
  · rw [if_pos ⟨hrec, by simp [hdate]⟩, hdate]
    simp [hpast]

/-- A recurring commute whose selected days all equal today's weekday, with
an arrival time that already passed today, contributes no candidate: offset
0 is skipped and no other offset matches the weekday. -/
theorem candidateOf_today_only_passed (now : Nat) (c : CommuteRule)
    (hrec : c.isRecurring = true)
    (hdays : ∀ d ∈ c.days, d = weekdayOf now)
    (hpast : isPast now (atTime (dayOf now) c.arrivalHour c.arrivalMin) = true) :
    candidateOf now c = none := by
  unfold candidateOf
  split
  · rfl
  · rw [if_neg (by simp [hrec])]
    split
    · rfl
    · have hscan : recurringScan now c = none := by
        unfold recurringScan
        rw [List.findSome?_eq_none_iff]
        intro i hi
        have hi7 : i < 7 := List.mem_range.mp hi
        by_cases hc : c.days.contains ((weekdayOf now + i) % 7) = true
        · have hmem : (weekdayOf now + i) % 7 ∈ c.days := by
            simpa using hc
          have heq := hdays _ hmem
          have hw : weekdayOf now < 7 := Nat.mod_lt _ (by norm_num)
          have hi0 : i = 0 := by omega
          subst hi0
          rw [if_pos hc, if_pos]
          simp only [Nat.add_zero]
          simpa using hpast
        · rw [if_neg hc]
      rw [hscan]

/-- `updateBest` yields `none` exactly when both inputs are empty. -/
theorem updateBest_eq_none (now : Nat) (acc : Option NextCommute)
    (c : CommuteRule) :
    updateBest now acc c = none ↔ acc = none ∧ candidateOf now c = none := by
  unfold updateBest
  cases hc : candidateOf now c with
  | none => simp
  | some cand =>
    cases acc with
    | none => simp
    | some b =>
      constructor
      · intro hno
        exfalso
        by_cases hlt : cand.commuteDate < b.commuteDate <;>
          simp [hlt] at hno
      · rintro ⟨h1, -⟩
        simp at h1

/-- The fold returns `none` exactly when it starts from `none` and no
commute in the list contributes a candidate. -/
theorem foldl_updateBest_eq_none (now : Nat) (l : List CommuteRule) :
    ∀ acc : Option NextCommute,
      (l.foldl (updateBest now) acc = none ↔
        acc = none ∧ ∀ c ∈ l, candidateOf now c = none) := by
  induction l with
  | nil => intro acc; simp
  | cons c rest ih =>
    intro acc
    rw [List.foldl_cons, ih, updateBest_eq_none]
    simp only [List.forall_mem_cons]
    tauto

/-- A successful `updateBest` returns either the accumulator or the new
commute's candidate. -/
theorem updateBest_eq_some (now : Nat) (acc : Option NextCommute)
    (c : CommuteRule) (x : NextCommute)
    (h : updateBest now acc c = some x) :
    acc = some x ∨ candidateOf now c = some x := by
  unfold updateBest at h
  cases hc : candidateOf now c with
  | none =>
    rw [hc] at h
    exact Or.inl h
  | some cand =>
    rw [hc] at h
    cases acc with
    | none =>
      dsimp only at h
      exact Or.inr h
    | some b =>
      dsimp only at h
      by_cases hlt : cand.commuteDate < b.commuteDate
      · rw [if_pos hlt] at h
        exact Or.inr h
      · rw [if_neg hlt] at h
        exact Or.inl h

/-- Value of `updateBest` on a commute without a candidate. -/
theorem updateBest_none_cand (now : Nat) (acc : Option NextCommute)
    (c : CommuteRule) (hc : candidateOf now c = none) :
    updateBest now acc c = acc := by
  unfold updateBest
  rw [hc]

/-- Value of `updateBest` on an empty accumulator. -/
theorem updateBest_none_acc (now : Nat) (c : CommuteRule) (cand : NextCommute)
    (hc : candidateOf now c = some cand) :
    updateBest now none c = some cand := by
  unfold updateBest
  rw [hc]

/-- Value of `updateBest` on two competing candidates. -/
theorem updateBest_some_some (now : Nat) (c : CommuteRule)
    (cand b : NextCommute) (hc : candidateOf now c = some cand) :
    updateBest now (some b) c =
      (if cand.commuteDate < b.commuteDate then some cand else some b) := by
  unfold updateBest
  rw [hc]

/-- The fold keeps the candidate with the smallest `commuteDate`: the result
comes from the accumulator or from some commute of the list, and its date is
a lower bound on the accumulator's date and on every candidate date in the
list. -/
theorem foldl_updateBest_eq_some (now : Nat) (l : List CommuteRule) :
    ∀ (acc : Option NextCommute) (r : NextCommute),
      l.foldl (updateBest now) acc = some r →
        (acc = some r ∨ ∃ c ∈ l, candidateOf now c = some r) ∧
        (∀ b, acc = some b → r.commuteDate ≤ b.commuteDate) ∧
        (∀ c ∈ l, ∀ cand, candidateOf now c = some cand →
          r.commuteDate ≤ cand.commuteDate) := by
  induction l with
  | nil =>
    intro acc r h
    simp only [List.foldl_nil] at h
    refine ⟨Or.inl h, ?_, by simp⟩
    intro b hb
    rw [h] at hb
    injection hb with hb
    rw [hb]
  | cons c rest ih =>
    intro acc r h
    rw [List.foldl_cons] at h
    obtain ⟨horigin, hacc, hall⟩ := ih (updateBest now acc c) r h
    have hbounds : (∀ b, acc = some b → r.commuteDate ≤ b.commuteDate) ∧
        (∀ cand, candidateOf now c = some cand →
          r.commuteDate ≤ cand.commuteDate) := by
      rcases hc : candidateOf now c with - | cand0
      · refine ⟨fun b hb => hacc b ?_, fun cand hcand => ?_⟩
        · rw [updateBest_none_cand now acc c hc, hb]
        · exact absurd hcand (by simp)
      · rcases hacc2 : acc with - | b0
        · refine ⟨fun b hb => ?_, fun cand hcand => ?_⟩
          · exact absurd hb (by simp)
          · injection hcand with hcand
            subst hcand
            exact hacc cand0 (by rw [hacc2]; exact updateBest_none_acc now c cand0 hc)
        · by_cases hlt : cand0.commuteDate < b0.commuteDate
          · have hr : r.commuteDate ≤ cand0.commuteDate := by
              refine hacc cand0 ?_
              rw [hacc2, updateBest_some_some now c cand0 b0 hc, if_pos hlt]
            refine ⟨fun b hb => ?_, fun cand hcand => ?_⟩
            · injection hb with hb
              subst hb
              exact le_trans hr (Nat.le_of_lt hlt)
            · injection hcand with hcand
              subst hcand
              exact hr
          · have hr : r.commuteDate ≤ b0.commuteDate := by
              refine hacc b0 ?_
              rw [hacc2, updateBest_some_some now c cand0 b0 hc, if_neg hlt]
            refine ⟨fun b hb => ?_, fun cand hcand => ?_⟩
            · injection hb with hb
              subst hb
              exact hr
            · injection hcand with hcand
              subst hcand
              exact le_trans hr (Nat.le_of_not_lt hlt)
    refine ⟨?_, hbounds.1, ?_⟩
    · rcases horigin with hup | ⟨c2, hc2, hcand2⟩
      · rcases updateBest_eq_some now acc c r hup with hl | hr2
        · exact Or.inl hl
        · exact Or.inr ⟨c, List.mem_cons_self c rest, hr2⟩
      · exact Or.inr ⟨c2, List.mem_cons_of_mem c hc2, hcand2⟩
    · intro c2 hc2 cand hcand
      rcases List.mem_cons.mp hc2 with rfl | hmem
      · exact hbounds.2 cand hcand
      · exact hall c2 hmem cand hcand

/-- A non-null resolver result is some commute's candidate and minimizes
`commuteDate` over all candidates. -/
theorem findNextActiveCommute_some_origin (now : Nat)
    (commutes : List CommuteRule) (r : NextCommute)
    (hr : findNextActiveCommute now commutes = some r) :
    (∃ c ∈ commutes, candidateOf now c = some r) ∧
    ∀ c ∈ commutes, ∀ cand, candidateOf now c = some cand →
      r.commuteDate ≤ cand.commuteDate := by
  unfold findNextActiveCommute at hr
  by_cases hempty : commutes.isEmpty
  · rw [if_pos hempty] at hr
    cases hr
  · rw [if_neg hempty] at hr
    obtain ⟨horigin, -, hall⟩ := foldl_updateBest_eq_some now commutes none r hr
    rcases horigin with habs | hex
    · cases habs
    · exact ⟨hex, hall⟩

/-- The resolver returns `null` exactly when no commute qualifies. -/
theorem findNextActiveCommute_none_iff (now : Nat)
    (commutes : List CommuteRule) :
    findNextActiveCommute now commutes = none ↔
      ∀ c ∈ commutes, candidateOf now c = none := by
  unfold findNextActiveCommute
  by_cases hempty : commutes.isEmpty
  · rw [if_pos hempty]
    simp [List.isEmpty_iff.mp hempty]
  · rw [if_neg hempty, foldl_updateBest_eq_none now commutes none]
    simp

/-! ## Claim theorems: occurrence resolver -/

/-- C6: `findNextActiveCommute` considers only enabled commutes, admits a
one-time commute as a candidate only if its `oneTimeDate` at `arrivalTime`
has not already passed, returns the candidate with the earliest
`commuteDate` across all commutes, and returns `null` when no commute
qualifies. -/
theorem findNextActiveCommute_earliest_candidate (now : Nat)
    (commutes : List CommuteRule) :
    (∀ c : CommuteRule, c.enabled = false → candidateOf now c = none) ∧
    (∀ (c : CommuteRule) (d0 : Nat), c.isRecurring = false →
      c.oneTimeDate = some d0 →
      isPast now (atTime d0 c.arrivalHour c.arrivalMin) = true →
      candidateOf now c = none) ∧
    (∀ r, findNextActiveCommute now commutes = some r →
      (∃ c ∈ commutes, candidateOf now c = some r) ∧
      ∀ c ∈ commutes, ∀ cand, candidateOf now c = some cand →
        r.commuteDate ≤ cand.commuteDate) ∧
    (findNextActiveCommute now commutes = none ↔
      ∀ c ∈ commutes, candidateOf now c = none) :=
  ⟨fun c h => candidateOf_disabled now c h,
   fun c d0 h1 h2 h3 => candidateOf_onetime_passed now c d0 h1 h2 h3,
   fun r hr => findNextActiveCommute_some_origin now commutes r hr,
   findNextActiveCommute_none_iff now commutes⟩

/-- Witness for C6 at a concrete input: on a Monday noon
(`388800 = day 4, 12:00`, weekday 1), a commute recurring on Tuesdays at
09:00 resolves to Tuesday 09:00 (`464400`), and that result is indeed the
candidate of a commute in the list. -/
theorem findNextActiveCommute_earliest_candidate_witness :
    ∃ c ∈ [(⟨"b", "B", true, [2], none, none, 9, 0, 60, 10, true, none⟩ :
        CommuteRule)],
      candidateOf 388800 c =
        some ⟨464400,
          ⟨"b", "B", true, [2], none, none, 9, 0, 60, 10, true, none⟩,
          false⟩ :=
  ((findNextActiveCommute_earliest_candidate 388800
      [⟨"b", "B", true, [2], none, none, 9, 0, 60, 10, true, none⟩]).2.2.1
    ⟨464400, ⟨"b", "B", true, [2], none, none, 9, 0, 60, 10, true, none⟩,
      false⟩ (by decide)).1

/-- C3 (code bug): on Monday noon (`now = 388800`, weekday 1), an enabled
weekly commute whose only selected day is today's weekday with an already
passed 08:00 arrival time contributes nothing - `findNextActiveCommute`
returns `null` instead of resolving to today + 7 days: the scan stops at
day offset 6 and the dead `isNextWeek` flag (`i >= 7`) is never reached. -/
theorem findNextActiveCommute_wraparound_bug :
    weekdayOf 388800 = 1 ∧
    isPast 388800 (atTime (dayOf 388800) 8 0) = true ∧
    findNextActiveCommute 388800
      [⟨"c", "Work", true, [1], some ⟨"s", "S"⟩, some ⟨"d", "D"⟩, 8, 0, 60,
        10, true, none⟩] = none := by
  decide

/-- C10 counterexample: a one-time commute may resolve arbitrarily far in
the future - here 36 calendar days ahead - refuting the claim that every
non-null result lies at most 6 days after today. -/
theorem findNextActiveCommute_onetime_far_counterexample :
    findNextActiveCommute 388800
      [⟨"t", "Trip", true, [], none, none, 8, 0, 60, 10, false, some 40⟩] =
      some ⟨3484800,
        ⟨"t", "Trip", true, [], none, none, 8, 0, 60, 10, false, some 40⟩,
        false⟩ ∧
    dayOf 388800 + 6 < dayOf 3484800 := by
  decide

/-- C10 (amended): with well-formed `"HH:mm"` arrival times, every non-null
resolver result has a not-in-the-past `commuteDate` and a false `isNextWeek`
flag; a result produced by the recurring branch lies at most 6 days after
today (a one-time commute may lie arbitrarily far ahead); and a recurring
commute whose selected days all equal today's weekday with an already passed
arrival time contributes no candidate at all. -/
theorem findNextActiveCommute_window_amended (now : Nat)
    (commutes : List CommuteRule)
    (hwf : ∀ c ∈ commutes, c.arrivalHour < 24 ∧ c.arrivalMin < 60) :
    (∀ r, findNextActiveCommute now commutes = some r →
      isPast now r.commuteDate = false ∧ r.isNextWeek = false ∧
        ((r.commute.isRecurring = true ∨ r.commute.oneTimeDate = none) →
          dayOf r.commuteDate ≤ dayOf now + 6)) ∧
    (∀ c : CommuteRule, c.enabled = true → c.isRecurring = true →
      (∀ d ∈ c.days, d = weekdayOf now) →
      isPast now (atTime (dayOf now) c.arrivalHour c.arrivalMin) = true →
      candidateOf now c = none) := by
  constructor
  · intro r hr
    obtain ⟨⟨c, hcmem, hcand⟩, -⟩ :=
      findNextActiveCommute_some_origin now commutes r hr
    obtain ⟨hcomm, hpast, hweek, -⟩ := candidateOf_spec now c r hcand
    refine ⟨hpast, hweek, fun hbranch => ?_⟩
    rw [hcomm] at hbranch
    exact candidateOf_day_bound now c r (hwf c hcmem).1 (hwf c hcmem).2
      hbranch hcand
  · intro c _ hrec hdays hpast
    exact candidateOf_today_only_passed now c hrec hdays hpast

/-- Witness for C10 (amended) at a concrete input: the Tuesday 09:00
resolution from Monday noon is not in the past, not flagged next-week, and
lies within 6 days. -/
theorem findNextActiveCommute_window_amended_witness :
    ∃ r : NextCommute, isPast 388800 r.commuteDate = false ∧
      r.isNextWeek = false ∧
      ((r.commute.isRecurring = true ∨ r.commute.oneTimeDate = none) →
        dayOf r.commuteDate ≤ dayOf 388800 + 6) :=
  ⟨⟨464400, ⟨"b", "B", true, [2], none, none, 9, 0, 60, 10, true, none⟩,
     false⟩,
   (findNextActiveCommute_window_amended 388800
      [⟨"b", "B", true, [2], none, none, 9, 0, 60, 10, true, none⟩]
      (by decide)).1 _ (by decide)⟩

/-! ## Lemmas about the journey selector -/

/-- `isViable` on a journey with a first and last leg. -/
theorem isViable_some_some (latest : Int) (j : Journey) (f l0 : Leg)
    (hh : j.legs.head? = some f) (hl : j.legs.getLast? = some l0) :
    isViable latest j = decide (legActualArrival l0 ≤ latest) := by
  unfold isViable
  rw [hh, hl]

/-- A journey without legs is not viable. -/
theorem isViable_no_head (latest : Int) (j : Journey)
    (hh : j.legs.head? = none) : isViable latest j = false := by
  unfold isViable
  rw [hh]

/-- `head?` and `getLast?` are `none` together. -/
theorem head?_none_of_getLast?_none (j : Journey)
    (hl : j.legs.getLast? = none) : j.legs.head? = none := by
  rw [List.getLast?_eq_none_iff] at hl
  rw [List.head?_eq_none_iff]
  exact hl

/-- The scoring loop yields no viable journey exactly when no journey of the
list is viable. -/
theorem viableJourneysAux_eq_nil (latest : Int) (l : List Journey) :
    ∀ idx : Nat, (viableJourneysAux latest l idx = [] ↔
      ∀ j ∈ l, isViable latest j = false) := by
  induction l with
  | nil => intro idx; simp [viableJourneysAux]
  | cons j rest ih =>
    intro idx
    rw [List.forall_mem_cons]
    unfold viableJourneysAux
    cases hh : j.legs.head? with
    | none =>
      have hv : isViable latest j = false := isViable_no_head latest j hh
      cases hl : j.legs.getLast? with
      | none => simp [hv, ih (idx + 1)]
      | some l0 => simp [hv, ih (idx + 1)]
    | some f =>
      cases hl : j.legs.getLast? with
      | none =>
        have : j.legs.head? = none := head?_none_of_getLast?_none j hl
        rw [this] at hh
        cases hh
      | some l0 =>
        have hv : isViable latest j = decide (legActualArrival l0 ≤ latest) :=
          isViable_some_some latest j f l0 hh hl
        dsimp only
        by_cases harr : legActualArrival l0 ≤ latest
        · rw [if_pos harr]
          simp [hv, harr]
        · rw [if_neg harr]
          simp [hv, harr, ih (idx + 1)]

/-- Every scored journey of the loop comes from the list, is viable, and
carries the journey's delay-adjusted departure and arrival. -/
theorem viableJourneysAux_mem (latest : Int) (l : List Journey) :
    ∀ (idx : Nat) (s : ScoredJourney), s ∈ viableJourneysAux latest l idx →
      s.journey ∈ l ∧ isViable latest s.journey = true ∧
      s.actualDeparture = journeyActualDeparture s.journey ∧
      s.actualArrival = journeyActualArrival s.journey := by
  induction l with
  | nil => intro idx s hs; simp [viableJourneysAux] at hs
  | cons j rest ih =>
    intro idx s hs
    unfold viableJourneysAux at hs
    cases hh : j.legs.head? with
    | none =>
      rw [hh] at hs
      cases hl : j.legs.getLast? with
      | none =>
        rw [hl] at hs
        obtain ⟨h1, h2, h3, h4⟩ := ih (idx + 1) s hs
        exact ⟨List.mem_cons_of_mem j h1, h2, h3, h4⟩
      | some l0 =>
        rw [hl] at hs
        obtain ⟨h1, h2, h3, h4⟩ := ih (idx + 1) s hs
        exact ⟨List.mem_cons_of_mem j h1, h2, h3, h4⟩
    | some f =>
      rw [hh] at hs
      cases hl : j.legs.getLast? with
      | none =>
        have : j.legs.head? = none := head?_none_of_getLast?_none j hl
        rw [this] at hh
        cases hh
      | some l0 =>
        rw [hl] at hs
        dsimp only at hs
        by_cases harr : legActualArrival l0 ≤ latest
        · rw [if_pos harr] at hs
          rcases List.mem_cons.mp hs with rfl | hmem
          · refine ⟨List.mem_cons_self j rest, ?_, ?_, ?_⟩
            · rw [isViable_some_some latest j f l0 hh hl]
              simpa using harr
            · unfold journeyActualDeparture
              rw [hh]
            · unfold journeyActualArrival
              rw [hl]
          · obtain ⟨h1, h2, h3, h4⟩ := ih (idx + 1) s hmem
            exact ⟨List.mem_cons_of_mem j h1, h2, h3, h4⟩
        · rw [if_neg harr] at hs
          obtain ⟨h1, h2, h3, h4⟩ := ih (idx + 1) s hs
          exact ⟨List.mem_cons_of_mem j h1, h2, h3, h4⟩

/-- Every viable journey of the list is scored by the loop. -/
theorem viableJourneysAux_complete (latest : Int) (l : List Journey) :
    ∀ (idx : Nat) (j : Journey), j ∈ l → isViable latest j = true →
      ∃ s ∈ viableJourneysAux latest l idx, s.journey = j := by
  induction l with
  | nil => intro idx j hj; simp at hj
  | cons j0 rest ih =>
    intro idx j hj hv
    unfold viableJourneysAux
    rcases List.mem_cons.mp hj with rfl | hmem
    · cases hh : j.legs.head? with
      | none => rw [isViable_no_head latest j hh] at hv; cases hv
      | some f =>
        cases hl : j.legs.getLast? with
        | none =>
          have : j.legs.head? = none := head?_none_of_getLast?_none j hl
          rw [this] at hh
          cases hh
        | some l0 =>
          dsimp only
          rw [isViable_some_some latest j f l0 hh hl] at hv
          have harr : legActualArrival l0 ≤ latest := by simpa using hv
          rw [if_pos harr]
          exact ⟨⟨j, idx, legActualArrival l0, legActualDeparture f⟩,
            List.mem_cons_self _ _, rfl⟩
    · cases hh : j0.legs.head? with
      | none =>
        dsimp only
        obtain ⟨t, ht1, ht2⟩ := ih (idx + 1) j hmem hv
        exact ⟨t, ht1, ht2⟩
      | some f =>
        cases hl : j0.legs.getLast? with
        | none =>
          have : j0.legs.head? = none := head?_none_of_getLast?_none j0 hl
          rw [this] at hh
          cases hh
        | some l0 =>
          dsimp only
          by_cases harr : legActualArrival l0 ≤ latest
          · rw [if_pos harr]
            obtain ⟨t, ht1, ht2⟩ := ih (idx + 1) j hmem hv
            exact ⟨t, List.mem_cons_of_mem _ ht1, ht2⟩
          · rw [if_neg harr]
            obtain ⟨t, ht1, ht2⟩ := ih (idx + 1) j hmem hv
            exact ⟨t, ht1, ht2⟩

/-- The latest-departure pick is one of the scored journeys. -/
theorem pickLatest_mem (rest : List ScoredJourney) :
    ∀ s : ScoredJourney, pickLatest s rest ∈ s :: rest := by
  induction rest with
  | nil => intro s; simp [pickLatest]
  | cons y rest ih =>
    intro s
    have heq : pickLatest s (y :: rest) =
        pickLatest (if s.actualDeparture < y.actualDeparture then y else s)
          rest := rfl
    rw [heq]
    rcases List.mem_cons.mp
        (ih (if s.actualDeparture < y.actualDeparture then y else s)) with
      h | h
    · rw [h]
      split
      · exact List.mem_cons_of_mem _ (List.mem_cons_self _ _)
      · exact List.mem_cons_self _ _
    · exact List.mem_cons_of_mem _ (List.mem_cons_of_mem _ h)

/-- The latest-departure pick dominates every scored journey's departure. -/
theorem pickLatest_ge (rest : List ScoredJourney) :
    ∀ s : ScoredJourney, ∀ x ∈ s :: rest,
      x.actualDeparture ≤ (pickLatest s rest).actualDeparture := by
  induction rest with
  | nil =>
    intro s x hx
    rcases List.mem_cons.mp hx with rfl | h
    · exact le_refl _
    · simp at h
  | cons y rest ih =>
    intro s x hx
    have heq : pickLatest s (y :: rest) =
        pickLatest (if s.actualDeparture < y.actualDeparture then y else s)
          rest := rfl
    rw [heq]
    have hifs : s.actualDeparture ≤
        (if s.actualDeparture < y.actualDeparture then y
          else s).actualDeparture := by
      split
      · rename_i hlt
        exact le_of_lt hlt
      · exact le_refl _
    have hify : y.actualDeparture ≤
        (if s.actualDeparture < y.actualDeparture then y
          else s).actualDeparture := by
      split
      · exact le_refl _
      · rename_i hlt
        exact le_of_not_lt hlt
    have hpick := ih (if s.actualDeparture < y.actualDeparture then y else s)
      _ (List.mem_cons_self _ _)
    rcases List.mem_cons.mp hx with rfl | hx2
    · exact le_trans hifs hpick
    · rcases List.mem_cons.mp hx2 with rfl | hx3
      · exact le_trans hify hpick
      · exact ih _ x (List.mem_cons_of_mem _ hx3)

/-! ## Claim theorems: journey selector -/

/-- C1: for a non-empty journey list, each journey having at least one leg,
with at least one viable journey, `selectOptimalJourney` returns a viable
journey whose delay-adjusted departure dominates the departure of every
viable journey, and an alarm time equal to that departure minus the
preparation minutes. -/
theorem selectOptimalJourney_viable_latest (journeys : List Journey)
    (desiredArrival prepTime safetyBuffer : Int)
    (hne : journeys ≠ [])
    (hlegs : ∀ j ∈ journeys, j.legs ≠ [])
    (hviable : ∃ j ∈ journeys,
      isViable (desiredArrival - safetyBuffer * 60) j = true) :
    ∃ sel jsel,
      selectOptimalJourney journeys desiredArrival prepTime safetyBuffer =
        some sel ∧
      sel.journey = some jsel ∧
      isViable (desiredArrival - safetyBuffer * 60) jsel = true ∧
      (∀ j ∈ journeys,
        isViable (desiredArrival - safetyBuffer * 60) j = true →
        journeyActualDeparture j ≤ journeyActualDeparture jsel) ∧
      sel.alarmTime = some (journeyActualDeparture jsel - prepTime * 60) := by
  obtain ⟨jv, hjv, hjvv⟩ := hviable
  unfold selectOptimalJourney
  rw [if_neg (by simpa [List.isEmpty_iff] using hne)]
  dsimp only
  cases hlist :
      viableJourneys journeys (desiredArrival - safetyBuffer * 60) with
  | nil =>
    exfalso
    unfold viableJourneys at hlist
    rw [viableJourneysAux_eq_nil] at hlist
    rw [hlist jv hjv] at hjvv
    cases hjvv
  | cons s rest =>
    dsimp only
    have hpmem : pickLatest s rest ∈
        viableJourneys journeys (desiredArrival - safetyBuffer * 60) := by
      rw [hlist]
      exact pickLatest_mem rest s
    obtain ⟨hmem, hviab, hdep, -⟩ :=
      viableJourneysAux_mem (desiredArrival - safetyBuffer * 60) journeys 0
        (pickLatest s rest) hpmem
    refine ⟨_, (pickLatest s rest).journey, rfl, rfl, hviab, ?_, ?_⟩
    · intro j hj hjv2
      obtain ⟨t, ht1, ht2⟩ :=
        viableJourneysAux_complete (desiredArrival - safetyBuffer * 60)
          journeys 0 j hj hjv2
      obtain ⟨-, -, htdep, -⟩ :=
        viableJourneysAux_mem (desiredArrival - safetyBuffer * 60) journeys 0
          t ht1
      have hge : t.actualDeparture ≤ (pickLatest s rest).actualDeparture := by
        refine pickLatest_ge rest s t ?_
        rw [← hlist]
        exact ht1
      rw [ht2] at htdep
      rw [← htdep, ← hdep]
      exact hge
    · rw [hdep]

/-- Witness for C1: two one-leg journeys arriving by 3000 with a 0-minute
buffer; the later departure (`1500 + 60` delay) is selected and the alarm is
`1560 - 10 * 60`. -/
theorem selectOptimalJourney_viable_latest_witness :
    (([⟨[⟨1000, 2000, none, none, none⟩]⟩,
       ⟨[⟨1500, 2500, some 60, some 60, none⟩]⟩] : List Journey) ≠ []) ∧
    ∃ sel jsel,
      selectOptimalJourney
        [⟨[⟨1000, 2000, none, none, none⟩]⟩,
         ⟨[⟨1500, 2500, some 60, some 60, none⟩]⟩] 3000 10 0 = some sel ∧
      sel.journey = some jsel ∧
      isViable (3000 - 0 * 60) jsel = true ∧
      (∀ j ∈ [(⟨[⟨1000, 2000, none, none, none⟩]⟩ : Journey),
          ⟨[⟨1500, 2500, some 60, some 60, none⟩]⟩],
        isViable (3000 - 0 * 60) j = true →
        journeyActualDeparture j ≤ journeyActualDeparture jsel) ∧
      sel.alarmTime = some (journeyActualDeparture jsel - 10 * 60) :=
  ⟨by decide,
   selectOptimalJourney_viable_latest
     [⟨[⟨1000, 2000, none, none, none⟩]⟩,
      ⟨[⟨1500, 2500, some 60, some 60, none⟩]⟩] 3000 10 0
     (by decide) (by decide) (by decide)⟩

/-- C2 counterexample: a non-empty journey list with no viable journey where
the first journey has no legs - the fallback path reads
`journeys[0].legs[0].plannedDeparture` unguarded and throws (modelled as
`none`), so no journey and no alarm time is returned, refuting the claim as
stated. -/
theorem selectOptimalJourney_fallback_throws_counterexample :
    (([(⟨[]⟩ : Journey)] : List Journey) ≠ []) ∧
    (∀ j ∈ [(⟨[]⟩ : Journey)], isViable (1000 - 0 * 60) j = false) ∧
    selectOptimalJourney [(⟨[]⟩ : Journey)] 1000 0 0 = none := by
  decide

/-- C2 (amended): for a non-empty journey list whose first element has at
least one leg and in which no journey is viable, `selectOptimalJourney`
returns the first journey of the list, the alarm computed from its
delay-adjusted first-leg departure minus the preparation minutes, and the
warning reasoning. -/
theorem selectOptimalJourney_fallback_first (journeys : List Journey)
    (desiredArrival prepTime safetyBuffer : Int)
    (hne : journeys ≠ [])
    (hnov : ∀ j ∈ journeys,
      isViable (desiredArrival - safetyBuffer * 60) j = false)
    (j0 : Journey) (hhead : journeys.head? = some j0) (hj0 : j0.legs ≠ []) :
    ∃ sel,
      selectOptimalJourney journeys desiredArrival prepTime safetyBuffer =
        some sel ∧
      sel.journey = some j0 ∧
      sel.alarmTime = some (journeyActualDeparture j0 - prepTime * 60) ∧
      sel.reasoning =
        Reasoning.fallbackWarning (desiredArrival - safetyBuffer * 60) := by
  unfold selectOptimalJourney
  rw [if_neg (by simpa [List.isEmpty_iff] using hne)]
  dsimp only
  have hnil : viableJourneys journeys (desiredArrival - safetyBuffer * 60)
      = [] := by
    unfold viableJourneys
    rw [viableJourneysAux_eq_nil]
    exact hnov
  rw [hnil, hhead]
  cases hf : j0.legs.head? with
  | none =>
    rw [List.head?_eq_none_iff] at hf
    exact absurd hf hj0
  | some f =>
    dsimp only
    rw [hf]
    refine ⟨_, rfl, rfl, ?_, rfl⟩
    unfold journeyActualDeparture
    rw [hf]

/-- Witness for C2 (amended): one delayed one-leg journey that misses the
deadline; the fallback returns it with the warning reasoning. -/
theorem selectOptimalJourney_fallback_first_witness :
    ∃ sel,
      selectOptimalJourney [(⟨[⟨100, 200, none, some 1000, none⟩]⟩ : Journey)]
        500 2 5 = some sel ∧
      sel.journey = some ⟨[⟨100, 200, none, some 1000, none⟩]⟩ ∧
      sel.alarmTime =
        some (journeyActualDeparture ⟨[⟨100, 200, none, some 1000, none⟩]⟩ -
          2 * 60) ∧
      sel.reasoning = Reasoning.fallbackWarning (500 - 5 * 60) :=
  selectOptimalJourney_fallback_first
    [⟨[⟨100, 200, none, some 1000, none⟩]⟩] 500 2 5 (by decide) (by decide)
    ⟨[⟨100, 200, none, some 1000, none⟩]⟩ (by decide) (by decide)

/-! ## Lemmas about the retry wrapper -/

/-- The loop makes at most `fuel` fetch calls. -/
theorem fetchGo_attempts_le (cfg : RetryConfig) (outcomes : Nat → FetchOutcome) :
    ∀ fuel attempt, (fetchGo cfg outcomes fuel attempt).attempts ≤ fuel := by
  intro fuel
  induction fuel with
  | zero => intro attempt; simp [fetchGo]
  | succ n ih =>
    intro attempt
    unfold fetchGo
    dsimp only
    cases ho : outcomes attempt with
    | netError =>
      dsimp only
      exact Nat.succ_le_succ (ih (attempt + 1))
    | response s0 =>
      dsimp only
      split
      · exact Nat.succ_le_succ (Nat.zero_le n)
      · dsimp only
        exact Nat.succ_le_succ (ih (attempt + 1))

/-- With fuel left, the loop makes at least one fetch call. -/
theorem fetchGo_attempts_pos (cfg : RetryConfig) (outcomes : Nat → FetchOutcome)
    (fuel attempt : Nat) :
    1 ≤ (fetchGo cfg outcomes (fuel + 1) attempt).attempts := by
  unfold fetchGo
  dsimp only
  cases ho : outcomes attempt with
  | netError =>
    dsimp only
    exact Nat.succ_le_succ (Nat.zero_le _)
  | response s0 =>
    dsimp only
    split
    · exact le_refl 1
    · dsimp only
      exact Nat.succ_le_succ (Nat.zero_le _)

/-- A returned non-2xx response always carries a non-retryable status. -/
theorem fetchGo_result_nonretryable (cfg : RetryConfig)
    (outcomes : Nat → FetchOutcome) :
    ∀ fuel attempt s, (fetchGo cfg outcomes fuel attempt).result = some s →
      responseOk s = false → cfg.retryableStatuses.contains s = false := by
  intro fuel
  induction fuel with
  | zero => intro attempt s h; simp [fetchGo] at h
  | succ n ih =>
    intro attempt s h hok
    unfold fetchGo at h
    dsimp only at h
    cases ho : outcomes attempt with
    | netError =>
      rw [ho] at h
      dsimp only at h
      exact ih (attempt + 1) s h hok
    | response s0 =>
      rw [ho] at h
      dsimp only at h
      by_cases hcond :
          (responseOk s0 || !(cfg.retryableStatuses.contains s0)) = true
      · rw [if_pos hcond] at h
        dsimp only at h
        injection h with h
        subst h
        rcases Bool.or_eq_true_iff.mp hcond with hok2 | hnr
        · rw [hok2] at hok
          cases hok
        · simpa using hnr
      · rw [if_neg hcond] at h
        dsimp only at h
        exact ih (attempt + 1) s h hok

/-- Every attempt followed by a further attempt saw a network error or a
non-2xx retryable status. -/
theorem fetchGo_retried (cfg : RetryConfig) (outcomes : Nat → FetchOutcome) :
    ∀ fuel attempt k, k + 1 < (fetchGo cfg outcomes fuel attempt).attempts →
      (outcomes (attempt + k) = FetchOutcome.netError ∨
        ∃ s, outcomes (attempt + k) = FetchOutcome.response s ∧
          responseOk s = false ∧
          cfg.retryableStatuses.contains s = true) := by
  intro fuel
  induction fuel with
  | zero =>
    intro attempt k hk
    simp [fetchGo] at hk
  | succ n ih =>
    intro attempt k hk
    unfold fetchGo at hk
    dsimp only at hk
    cases ho : outcomes attempt with
    | netError =>
      rw [ho] at hk
      dsimp only at hk
      cases k with
      | zero => exact Or.inl (by simpa using ho)
      | succ k2 =>
        have hres := ih (attempt + 1) k2 (by omega)
        rw [show attempt + 1 + k2 = attempt + (k2 + 1) by omega] at hres
        exact hres
    | response s0 =>
      rw [ho] at hk
      dsimp only at hk
      by_cases hcond :
          (responseOk s0 || !(cfg.retryableStatuses.contains s0)) = true
      · rw [if_pos hcond] at hk
        dsimp only at hk
        exact absurd hk (by omega)
      · rw [if_neg hcond] at hk
        dsimp only at hk
        simp only [Bool.or_eq_true, Bool.not_eq_true', not_or,
          Bool.not_eq_true] at hcond
        cases k with
        | zero =>
          exact Or.inr ⟨s0, by simpa using ho, hcond.1, by simpa using hcond.2⟩
        | succ k2 =>
          have hres := ih (attempt + 1) k2 (by omega)
          rw [show attempt + 1 + k2 = attempt + (k2 + 1) by omega] at hres
          exact hres

/-- Shape of the waits performed by the loop when every iteration waits
(`attempt ≥ 1`): one backoff per attempt, in order. -/
theorem fetchGo_delays_ge_one (cfg : RetryConfig)
    (outcomes : Nat → FetchOutcome) :
    ∀ fuel attempt, 1 ≤ attempt →
      (fetchGo cfg outcomes fuel attempt).delays =
        (List.range (fetchGo cfg outcomes fuel attempt).attempts).map
          (fun k => backoffDelay cfg (attempt + k)) := by
  intro fuel
  induction fuel with
  | zero => intro attempt ha; simp [fetchGo]
  | succ n ih =>
    intro attempt ha
    unfold fetchGo
    dsimp only
    rw [if_pos (by omega : 0 < attempt)]
    cases ho : outcomes attempt with
    | netError =>
      dsimp only
      rw [ih (attempt + 1) (by omega), List.range_succ_eq_map,
        List.map_cons, List.map_map]
      rw [Nat.add_zero]
      rw [List.singleton_append]
      congr 1
      refine List.map_congr_left fun k _ => ?_
      simp only [Function.comp_apply]
      congr 1
      omega
    | response s0 =>
      dsimp only
      split
      · rw [List.range_succ_eq_map]
        simp
      · dsimp only
        rw [ih (attempt + 1) (by omega), List.range_succ_eq_map,
          List.map_cons, List.map_map]
        rw [Nat.add_zero]
        rw [List.singleton_append]
        congr 1
        refine List.map_congr_left fun k _ => ?_
        simp only [Function.comp_apply]
        congr 1
        omega

/-- Shape of the waits of a full `fetchWithRetry` run: no wait before the
initial attempt, then one backoff per retry. -/
theorem fetchWithRetry_delays (cfg : RetryConfig)
    (outcomes : Nat → FetchOutcome) :
    (fetchWithRetry cfg outcomes).delays =
      (List.range ((fetchWithRetry cfg outcomes).attempts - 1)).map
        (fun k => backoffDelay cfg (k + 1)) := by
  unfold fetchWithRetry fetchGo
  dsimp only
  rw [if_neg (by omega : ¬ 0 < 0)]
  cases ho : outcomes 0 with
  | netError =>
    dsimp only
    rw [fetchGo_delays_ge_one cfg outcomes cfg.maxRetries 1 (le_refl 1)]
    rw [Nat.add_sub_cancel, List.nil_append]
    refine List.map_congr_left fun k _ => ?_
    congr 1
    omega
  | response s0 =>
    dsimp only
    split
    · simp
    · dsimp only
      rw [fetchGo_delays_ge_one cfg outcomes cfg.maxRetries 1 (le_refl 1)]
      rw [Nat.add_sub_cancel, List.nil_append]
      refine List.map_congr_left fun k _ => ?_
      congr 1
      omega

/-! ## Claim theorem: retry wrapper -/

/-- C7: with the default configuration, `fetchWithRetry` makes at most 4
fetch calls (3 retries after the initial attempt), waits before retry
`k + 1` exactly `min(1000 * 2 ^ k, 10000)` ms - i.e. 1s, 2s, 4s - retries
only on network errors or statuses in {429, 500, 502, 503, 504}, and any
returned non-2xx response carries a non-retryable status (it was handed back
immediately, without further retries). -/
theorem fetchWithRetry_spec (outcomes : Nat → FetchOutcome) (t : RetryTrace)
    (ht : t = fetchWithRetry DEFAULT_RETRY_CONFIG outcomes) :
    t.attempts ≤ 4 ∧
    t.delays = [1000, 2000, 4000].take (t.attempts - 1) ∧
    (∀ s, t.result = some s → responseOk s = false →
      DEFAULT_RETRY_CONFIG.retryableStatuses.contains s = false) ∧
    (∀ k, k + 1 < t.attempts →
      (outcomes k = FetchOutcome.netError ∨
        ∃ s, outcomes k = FetchOutcome.response s ∧ responseOk s = false ∧
          DEFAULT_RETRY_CONFIG.retryableStatuses.contains s = true)) := by
  subst ht
  have hle : (fetchWithRetry DEFAULT_RETRY_CONFIG outcomes).attempts ≤ 4 :=
    fetchGo_attempts_le DEFAULT_RETRY_CONFIG outcomes 4 0
  have hpos : 1 ≤ (fetchWithRetry DEFAULT_RETRY_CONFIG outcomes).attempts :=
    fetchGo_attempts_pos DEFAULT_RETRY_CONFIG outcomes 3 0
  refine ⟨hle, ?_, ?_, ?_⟩
  · rw [fetchWithRetry_delays DEFAULT_RETRY_CONFIG outcomes]
    have hm : (fetchWithRetry DEFAULT_RETRY_CONFIG outcomes).attempts - 1 = 0 ∨
        (fetchWithRetry DEFAULT_RETRY_CONFIG outcomes).attempts - 1 = 1 ∨
        (fetchWithRetry DEFAULT_RETRY_CONFIG outcomes).attempts - 1 = 2 ∨
        (fetchWithRetry DEFAULT_RETRY_CONFIG outcomes).attempts - 1 = 3 := by
      omega
    rcases hm with hm | hm | hm | hm <;> rw [hm] <;> rfl
  · intro s hs hok
    exact fetchGo_result_nonretryable DEFAULT_RETRY_CONFIG outcomes 4 0 s hs
      hok
  · intro k hk
    have hres := fetchGo_retried DEFAULT_RETRY_CONFIG outcomes 4 0 k hk
    rw [Nat.zero_add] at hres
    exact hres

/-- Witness for C7: a 503 on the first attempt, then a 200 - the trace is
one 1000 ms wait and two attempts, and the retried attempt indeed saw a
retryable status. -/
theorem fetchWithRetry_spec_witness :
    (⟨some 200, [1000], 2⟩ : RetryTrace).attempts ≤ 4 ∧
    (⟨some 200, [1000], 2⟩ : RetryTrace).delays =
      [1000, 2000, 4000].take ((⟨some 200, [1000], 2⟩ : RetryTrace).attempts
        - 1) ∧
    (∀ s, (⟨some 200, [1000], 2⟩ : RetryTrace).result = some s →
      responseOk s = false →
      DEFAULT_RETRY_CONFIG.retryableStatuses.contains s = false) ∧
    (∀ k, k + 1 < (⟨some 200, [1000], 2⟩ : RetryTrace).attempts →
      ((fun i => if i = 0 then FetchOutcome.response 503
          else FetchOutcome.response 200) k = FetchOutcome.netError ∨
        ∃ s, (fun i => if i = 0 then FetchOutcome.response 503
            else FetchOutcome.response 200) k = FetchOutcome.response s ∧
          responseOk s = false ∧
          DEFAULT_RETRY_CONFIG.retryableStatuses.contains s = true)) :=
  fetchWithRetry_spec
    (fun i => if i = 0 then FetchOutcome.response 503
      else FetchOutcome.response 200)
    ⟨some 200, [1000], 2⟩ (by decide)

/-! ## Lemmas about the cache -/

/-- Appending a fresh entry makes it visible when the key was absent. -/
theorem cacheLookup_append (α : Type) (c : Cache α) (k : String)
    (e : CacheEntry α) (habs : List.any c (fun p => p.1 == k) = false) :
    cacheLookup (c ++ [(k, e)]) k = some e := by
  induction c with
  | nil => simp [cacheLookup]
  | cons p rest ih =>
    simp only [List.any_cons, Bool.or_eq_false_iff] at habs
    rw [List.cons_append]
    unfold cacheLookup
    rw [if_neg (by simp [habs.1])]
    exact ih habs.2

/-- Replacing an entry in place makes it visible when the key was present. -/
theorem cacheLookup_replace (α : Type) (c : Cache α) (k : String)
    (e : CacheEntry α) (hpres : List.any c (fun p => p.1 == k) = true) :
    cacheLookup (List.map (fun p => if p.1 == k then (k, e) else p) c) k =
      some e := by
  induction c with
  | nil => simp at hpres
  | cons p rest ih =>
    rw [List.map_cons]
    by_cases hp : (p.1 == k) = true
    · rw [if_pos hp]
      unfold cacheLookup
      rw [if_pos (by simp)]
    · rw [if_neg hp]
      simp only [List.any_cons, Bool.or_eq_true] at hpres
      unfold cacheLookup
      rw [if_neg hp]
      rcases hpres with h1 | h1
      · exact absurd h1 hp
      · exact ih h1

/-- A `cache.set` is visible to the next `cache.get` of the same key. -/
theorem cacheLookup_insert (α : Type) (c : Cache α) (k : String)
    (e : CacheEntry α) : cacheLookup (cacheInsert c k e) k = some e := by
  unfold cacheInsert
  by_cases hpres : List.any c (fun p => p.1 == k) = true
  · rw [if_pos hpres]
    exact cacheLookup_replace α c k e hpres
  · rw [if_neg hpres]
    exact cacheLookup_append α c k e (Bool.eq_false_iff.mpr hpres)

/-! ## Claim theorem: cache TTLs -/

/-- C9: a lookup strictly past an entry's `expiresAt` deletes the entry and
returns a miss; data is only ever served from an unexpired entry; journey
responses are stored with `expiresAt` two minutes (120000 ms) after storage,
station search results 24 hours (86400000 ms) after storage. -/
theorem cache_ttl_spec (α : Type) (now : Nat) (c : Cache α) (k : String) :
    (∀ e : CacheEntry α, cacheLookup c k = some e → e.expiresAt < now →
      getCached now c k = (none, cacheDelete c k)) ∧
    (∀ d, (getCached now c k).1 = some d →
      ∃ e : CacheEntry α, cacheLookup c k = some e ∧ d = e.data ∧
        now ≤ e.expiresAt) ∧
    (∀ d, cacheLookup (storeJourneysResult now c k d) k =
      some ⟨d, now, now + 2 * 60 * 1000⟩) ∧
    (∀ d, cacheLookup (storeStationsResult now c k d) k =
      some ⟨d, now, now + 24 * 60 * 60 * 1000⟩) := by
  refine ⟨?_, ?_, ?_, ?_⟩
  · intro e he hexp
    unfold getCached
    rw [he]
    dsimp only
    rw [if_pos (by omega : now > e.expiresAt)]
  · intro d hd
    unfold getCached at hd
    cases he : cacheLookup c k with
    | none => rw [he] at hd; cases hd
    | some e =>
      rw [he] at hd
      dsimp only at hd
      by_cases hexp : now > e.expiresAt
      · rw [if_pos hexp] at hd
        cases hd
      · rw [if_neg hexp] at hd
        dsimp only at hd
        injection hd with hd
        exact ⟨e, rfl, hd.symm, by omega⟩
  · intro d
    exact cacheLookup_insert α c k ⟨d, now, now + 2 * 60 * 1000⟩
  · intro d
    exact cacheLookup_insert α c k ⟨d, now, now + 24 * 60 * 60 * 1000⟩

/-- Witness for C9: an entry stored at 0 that expired at 10 is deleted and
missed by a lookup at 11. -/
theorem cache_ttl_spec_witness :
    getCached 11 [("k", (⟨5, 0, 10⟩ : CacheEntry Nat))] "k" =
      (none, cacheDelete [("k", (⟨5, 0, 10⟩ : CacheEntry Nat))] "k") :=
  (cache_ttl_spec Nat 11 [("k", (⟨5, 0, 10⟩ : CacheEntry Nat))] "k").1
    ⟨5, 0, 10⟩ (by decide) (by decide)

/-! ## Lemmas about the reconciliation cycles -/

/-- When no candidate alarm is computed, a background cycle is a no-op. -/
theorem backgroundTaskCycle_noop_of_none (now : Nat)
    (commutes : List CommuteRule) (fetched : List Journey)
    (store : AlarmStore)
    (hc : bgCandidate now commutes fetched = none) :
    backgroundTaskCycle now commutes fetched store =
      ⟨store, false, false, false⟩ := by
  unfold backgroundTaskCycle
  unfold bgCandidate at hc
  split
  · rfl
  · rename_i nc hfc
    rw [hfc] at hc
    dsimp only at hc
    split
    · rfl
    · rename_i hst
      rw [if_neg hst] at hc
      split
      · rfl
      · rename_i leg hleg
        rw [hleg] at hc
        dsimp only at hc ⊢
        split
        · rfl
        · rename_i hpast
          rw [if_neg hpast] at hc
          cases hc

/-- When the computed candidate equals the persisted alarm, a background
cycle is a no-op. -/
theorem backgroundTaskCycle_noop_of_eq (now : Nat)
    (commutes : List CommuteRule) (fetched : List Journey)
    (store : AlarmStore) (t : Int)
    (hc : bgCandidate now commutes fetched = some t)
    (heq : store.alarmTime = some t) :
    backgroundTaskCycle now commutes fetched store =
      ⟨store, false, false, false⟩ := by
  unfold backgroundTaskCycle
  unfold bgCandidate at hc
  split
  · rfl
  · rename_i nc hfc
    rw [hfc] at hc
    dsimp only at hc
    split
    · rfl
    · rename_i hst
      rw [if_neg hst] at hc
      split
      · rfl
      · rename_i leg hleg
        rw [hleg] at hc
        dsimp only at hc ⊢
        split
        · rfl
        · rename_i hpast
          rw [if_neg hpast] at hc
          injection hc with hc
          rw [if_pos (by rw [heq, hc])]

/-- When a candidate is computed, the store after a background cycle holds
exactly that candidate. -/
theorem backgroundTaskCycle_alarm_of_some (now : Nat)
    (commutes : List CommuteRule) (fetched : List Journey)
    (store : AlarmStore) (t : Int)
    (hc : bgCandidate now commutes fetched = some t) :
    (backgroundTaskCycle now commutes fetched store).store.alarmTime =
      some t := by
  unfold backgroundTaskCycle
  unfold bgCandidate at hc
  split
  · rename_i hfc
    rw [hfc] at hc
    cases hc
  · rename_i nc hfc
    rw [hfc] at hc
    dsimp only at hc
    split
    · rename_i hst
      rw [if_pos hst] at hc
      cases hc
    · rename_i hst
      rw [if_neg hst] at hc
      split
      · rename_i hleg
        rw [hleg] at hc
        cases hc
      · rename_i leg hleg
        rw [hleg] at hc
        dsimp only at hc ⊢
        split
        · rename_i hpast
          rw [if_pos hpast] at hc
          cases hc
        · rename_i hpast
          rw [if_neg hpast] at hc
          injection hc with hc
          split
          · rename_i hsame
            rw [hsame, hc]
          · split <;> rw [hc]

/-- A foreground (dashboard) cycle never creates an adjustment record and
never touches the history. -/
theorem dashboardCycle_no_record (now : Nat) (commutes : List CommuteRule)
    (fetched : List Journey) (store : AlarmStore) :
    (dashboardCycle now commutes fetched store).recordCreated = false ∧
    (dashboardCycle now commutes fetched store).store.history =
      store.history := by
  unfold dashboardCycle
  repeat' split
  all_goals exact ⟨rfl, rfl⟩

/-- A settings-save cycle never creates an adjustment record and never
touches the history. -/
theorem saveAllCycle_no_record (now : Nat) (commuteDate : Int)
    (prepTime safetyBuffer : Nat) (fetched : List Journey)
    (store : AlarmStore) :
    (saveAllCycle now commuteDate prepTime safetyBuffer fetched
      store).recordCreated = false ∧
    (saveAllCycle now commuteDate prepTime safetyBuffer fetched
      store).store.history = store.history := by
  unfold saveAllCycle
  repeat' split
  all_goals exact ⟨rfl, rfl⟩

/-- Full description of how a background cycle treats the adjustment
history: no record without a prior alarm, untouched history without a
record, and on creation a prepend-then-trim of an adjustment recording the
overwritten value. -/
theorem backgroundTaskCycle_history_spec (now : Nat)
    (commutes : List CommuteRule) (fetched : List Journey)
    (store : AlarmStore) (r : CycleResult)
    (hr : r = backgroundTaskCycle now commutes fetched store) :
    (store.alarmTime = none → r.recordCreated = false) ∧
    (r.recordCreated = false → r.store.history = store.history) ∧
    (r.recordCreated = true →
      r.wroteAlarm = true ∧
      ∃ old adj, store.alarmTime = some old ∧
        r.store.alarmTime ≠ store.alarmTime ∧
        adj.oldAlarmTime = old ∧
        r.store.history = (adj :: store.history).take 10) := by
  subst hr
  unfold backgroundTaskCycle
  split
  · exact ⟨fun _ => rfl, fun _ => rfl, fun h => absurd h (by simp)⟩
  · split
    · exact ⟨fun _ => rfl, fun _ => rfl, fun h => absurd h (by simp)⟩
    · split
      · exact ⟨fun _ => rfl, fun _ => rfl, fun h => absurd h (by simp)⟩
      · rename_i leg hleg
        dsimp only
        split
        · exact ⟨fun _ => rfl, fun _ => rfl, fun h => absurd h (by simp)⟩
        · split
          · exact ⟨fun _ => rfl, fun _ => rfl, fun h => absurd h (by simp)⟩
          · rename_i hne
            split
            · exact ⟨fun _ => rfl, fun _ => rfl, fun h => absurd h (by simp)⟩
            · rename_i old hold
              refine ⟨fun h0 => ?_, fun h => absurd h (by simp), fun _ => ?_⟩
              · rw [h0] at hold
                cases hold
              · refine ⟨rfl, old, _, hold, ?_, rfl, rfl⟩
                rw [hold]
                intro hx
                exact hne (hold.trans hx.symm)

/-! ## Claim theorems: reconciliation cycles -/

/-- C4 (code bug): the settings-save trigger persists a computed alarm that
is already in the past.  At `now = 1000000` with a single viable journey
departing at `999000` (no prep time), `handleSaveAll` writes
`alarmTime = 999000 < now` to storage; only the notification is skipped
(`scheduleAlarmNotification` refuses past times), unlike the background and
foreground triggers, which discard the whole result before persisting. -/
theorem saveAllCycle_persists_past_alarm :
    saveAllCycle 1000000 1001000 0 0
      [⟨[⟨999000, 999600, none, none, none⟩]⟩] ⟨none, []⟩ =
      ⟨⟨some 999000, []⟩, true, false, false⟩ ∧
    (999000 : Int) < 1000000 := by
  decide

/-- C5 counterexample: a foreground cycle whose computed candidate
(`392400`, as the run from an empty store shows) equals the persisted alarm
still writes the alarm key and re-schedules the notification, refuting the
claim that an unchanged alarm causes no write and no notification under
every trigger. -/
theorem dashboardCycle_rewrites_unchanged_counterexample :
    dashboardCycle 388800
      [⟨"c5", "Work", true, [1], some ⟨"s", "S"⟩, some ⟨"d", "D"⟩, 14, 0, 0,
        10, true, none⟩]
      [⟨[⟨392400, 393000, none, none, none⟩]⟩] ⟨some 392400, []⟩ =
      ⟨⟨some 392400, []⟩, true, true, false⟩ ∧
    (dashboardCycle 388800
      [⟨"c5", "Work", true, [1], some ⟨"s", "S"⟩, some ⟨"d", "D"⟩, 14, 0, 0,
        10, true, none⟩]
      [⟨[⟨392400, 393000, none, none, none⟩]⟩]
      ⟨none, []⟩).store.alarmTime = some 392400 := by
  decide

/-- C5 (amended): only the background trigger compares the candidate with
the persisted alarm before acting - running it twice on unchanged upstream
data makes the second cycle a complete no-op (no write, no notification, no
adjustment record); the foreground and settings-save triggers rewrite and
re-arm the fixed-id notification even when the value is unchanged, but they
never create an `AlarmAdjustment`, so repeated runs of any trigger still
produce no new adjustment record. -/
theorem reconciler_idempotence_amended (now : Nat)
    (commutes : List CommuteRule) (fetched : List Journey)
    (store : AlarmStore) (commuteDate : Int) (prepTime safetyBuffer : Nat) :
    backgroundTaskCycle now commutes fetched
        (backgroundTaskCycle now commutes fetched store).store =
      ⟨(backgroundTaskCycle now commutes fetched store).store, false, false,
        false⟩ ∧
    (dashboardCycle now commutes fetched store).recordCreated = false ∧
    (saveAllCycle now commuteDate prepTime safetyBuffer fetched
      store).recordCreated = false := by
  refine ⟨?_, (dashboardCycle_no_record now commutes fetched store).1,
    (saveAllCycle_no_record now commuteDate prepTime safetyBuffer fetched
      store).1⟩
  cases hc : bgCandidate now commutes fetched with
  | none =>
    rw [backgroundTaskCycle_noop_of_none now commutes fetched store hc]
    exact backgroundTaskCycle_noop_of_none now commutes fetched _ hc
  | some t =>
    exact backgroundTaskCycle_noop_of_eq now commutes fetched _ t hc
      (backgroundTaskCycle_alarm_of_some now commutes fetched store t hc)

/-- C8: an `AlarmAdjustment` is created by a background cycle only when a
previously persisted alarm is overwritten with a different value - never on
first-ever scheduling; on creation the new record (carrying the overwritten
value) is prepended and the history trimmed to the 10 most recent entries,
the surviving old records unchanged; without a record creation the history
is untouched, and the foreground and settings-save cycles never touch it. -/
theorem adjustmentHistory_invariants (now : Nat)
    (commutes : List CommuteRule) (fetched : List Journey)
    (store : AlarmStore) (commuteDate : Int) (prepTime safetyBuffer : Nat)
    (r : CycleResult)
    (hr : r = backgroundTaskCycle now commutes fetched store) :
    (store.alarmTime = none → r.recordCreated = false) ∧
    (r.recordCreated = false → r.store.history = store.history) ∧
    (r.recordCreated = true →
      r.wroteAlarm = true ∧
      ∃ old adj, store.alarmTime = some old ∧
        r.store.alarmTime ≠ store.alarmTime ∧
        adj.oldAlarmTime = old ∧
        r.store.history = (adj :: store.history).take 10) ∧
    (r.recordCreated = true → r.store.history.length ≤ 10) ∧
    (dashboardCycle now commutes fetched store).store.history =
      store.history ∧
    (saveAllCycle now commuteDate prepTime safetyBuffer fetched
      store).store.history = store.history := by
  obtain ⟨h1, h2, h3⟩ :=
    backgroundTaskCycle_history_spec now commutes fetched store r hr
  refine ⟨h1, h2, h3, fun hcr => ?_,
    (dashboardCycle_no_record now commutes fetched store).2,
    (saveAllCycle_no_record now commuteDate prepTime safetyBuffer fetched
      store).2⟩
  obtain ⟨-, old, adj, -, -, -, hhist⟩ := h3 hcr
  rw [hhist]
  simp [List.length_take]

/-- Witness for C8 at a concrete input: overwriting a persisted alarm `100`
with `389100` creates exactly one adjustment recording the old value. -/
theorem adjustmentHistory_invariants_witness :
    (⟨⟨some 389100, [⟨"adj-388800", 388800, 100, 389100, 5⟩]⟩, true, true,
        true⟩ : CycleResult).wroteAlarm = true ∧
    ∃ old adj, (⟨some 100, []⟩ : AlarmStore).alarmTime = some old ∧
      (⟨⟨some 389100, [⟨"adj-388800", 388800, 100, 389100, 5⟩]⟩, true, true,
        true⟩ : CycleResult).store.alarmTime ≠
          (⟨some 100, []⟩ : AlarmStore).alarmTime ∧
      adj.oldAlarmTime = old ∧
      (⟨⟨some 389100, [⟨"adj-388800", 388800, 100, 389100, 5⟩]⟩, true, true,
        true⟩ : CycleResult).store.history =
        (adj :: (⟨some 100, []⟩ : AlarmStore).history).take 10 :=
  (adjustmentHistory_invariants 388800
    [⟨"c3", "Work", true, [1], some ⟨"s", "S"⟩, some ⟨"d", "D"⟩, 14, 0, 60,
      10, true, none⟩]
    [⟨[⟨392400, 393000, some 300, some 300, none⟩]⟩] ⟨some 100, []⟩ 0 0 0
    ⟨⟨some 389100, [⟨"adj-388800", 388800, 100, 389100, 5⟩]⟩, true, true,
      true⟩ (by decide)).2.2.1 (by decide)
